import Mathlib

/-!
Shallow embedding of `data/logs_model/elastic_logs.py` (Quay's Elasticsearch
log-index lifecycle model) and proofs about its naming/validation scheme,
retention decision, and initialization / data-plane protocol.

Strings are modelled as `List Char`.  The Python regex
`VALID_INDEX_PATTERN = r"^((?!\.$|\.\.$|[-_+])([^A-Z:\/*?\"<>|,# ]){1,255})$"`
is embedded with Python `re` semantics: `re.match` anchors at the start, and
`$` (without MULTILINE) matches at the end of the string or just before a
newline that is the final character.  `datetime.strptime(s, "%Y-%m-%d")` is
embedded following CPython's `_strptime`: the format compiles to the regex
`(?P<Y>\d\d\d\d)-(?P<m>1[0-2]|0[1-9]|[1-9])-(?P<d>3[01]|[12]\d|0[1-9]|[1-9])`,
the whole input must be consumed ("unconverted data remains" otherwise), and
the resulting numbers are re-validated by the `datetime` constructor
(MINYEAR = 1, MAXYEAR = 9999, day bounded by the month length).  Digits are
modelled as ASCII `0`-`9` (CPython's `\d` also accepts other Unicode decimal
digits; those exotic inputs are outside the scope of this model).
`datetime.strftime("%Y-%m-%d")` is modelled as zero-padded 4/2/2-digit
fields, following the documented format (`0001`, ...).

The stateful part (`ElasticsearchLogs`) is modelled as explicit state passing
over an `EsLogs` record, with backend responses supplied by a `BackendResp`
oracle and every backend interaction recorded in a trace of `EsCall` events.
Python exceptions become `Except` results.
-/

/-- Membership in the regex character class `[^A-Z:\/*?\"<>|,# ]`:
everything except ASCII uppercase letters and the eleven listed characters
(colon, slash, star, question mark, double quote, angle brackets, pipe,
comma, hash, space) is allowed.  Note `-`, `_`, `+`, `.` and control
characters such as a newline are allowed by the class; the leading-character
restriction on `-`, `_`, `+` comes from the lookahead, not from the class. -/
def allowedChar (c : Char) : Bool :=
  !((decide ('A' ≤ c) && decide (c ≤ 'Z')) || decide (c = ':') || decide (c = '/') ||
    decide (c = '*') || decide (c = '?') || decide (c = '"') || decide (c = '<') ||
    decide (c = '>') || decide (c = '|') || decide (c = ',') || decide (c = '#') ||
    decide (c = ' '))

/-- Python `$` (no MULTILINE): matches at position `k` iff `k` is the end of
the string or `k` is just before a newline that is the last character. -/
def dollarAt (s : List Char) (k : Nat) : Bool :=
  decide (k = s.length) || (decide (k + 1 = s.length) && decide (s.getLast? = some '\n'))

/-- The negative lookahead `(?!\.$|\.\.$|[-_+])` of `VALID_INDEX_PATTERN`,
evaluated at position 0: true iff one of the three alternatives matches
there (which makes the overall regex fail). -/
def lookaheadFails (s : List Char) : Bool :=
  (decide (s.headD 'x' = '.') && dollarAt s 1) ||
  (decide (s.headD 'x' = '.') && decide ((s.drop 1).headD 'x' = '.') && dollarAt s 2) ||
  decide (s.headD 'x' = '-') || decide (s.headD 'x' = '_') || decide (s.headD 'x' = '+')

/-- One way the body `([^A-Z:\/*?\"<>|,# ]){1,255}$` can match starting at
position 0: the class consumes exactly `k` characters (so `k ≤ |s|` and all
of the first `k` characters are in the class, with `1 ≤ k ≤ 255`) and then
`$` matches at position `k`. -/
def bodyMatchAt (s : List Char) (k : Nat) : Bool :=
  decide (1 ≤ k) && decide (k ≤ 255) && dollarAt s k &&
  decide ((s.take k).length = k) && (s.take k).all allowedChar

/-- `ElasticsearchLogs._valid_index_prefix`:
`re.match(VALID_INDEX_PATTERN, prefix) is not None`.  The regex matches iff
the lookahead does not fail at position 0 and the body can consume some
`k ∈ [1, 255]` characters followed by `$`. -/
def valid_index_pfx (s : List Char) : Bool :=
  !(lookaheadFails s) && (List.range 256).any (fun k => bodyMatchAt s k)

/-- ASCII decimal digit. -/
def isDig (c : Char) : Bool := decide ('0' ≤ c) && decide (c ≤ '9')

/-- Numeric value of a digit string (the `int(...)` conversion CPython
applies to each matched group). -/
def digitsVal (l : List Char) : Nat := l.foldl (fun a c => a * 10 + (c.toNat - 48)) 0

/-- Split a character list on `-` (used to mirror how the literal `-`
separators of the compiled `%Y-%m-%d` regex delimit the three groups, none
of which can contain `-`). -/
def splitDash : List Char → List (List Char)
  | [] => [[]]
  | c :: rest =>
    match splitDash rest with
    | h :: t => if c = '-' then [] :: h :: t else (c :: h) :: t
    | [] => [[c]]

/-- The language of the `%m` group `1[0-2]|0[1-9]|[1-9]` as a full segment
(the segment is delimited by the literal `-`, so the alternation must
consume it entirely): a digit string of length 1 or 2 with value 1-12
(rejecting `0` and `00`; a leading zero forces value ≤ 9, and a two-digit
value ≤ 9 forces a leading zero, both captured by the value bounds). -/
def monthSeg (l : List Char) : Bool :=
  l.all isDig && decide (1 ≤ l.length) && decide (l.length ≤ 2) &&
  decide (1 ≤ digitsVal l) && decide (digitsVal l ≤ 12)

/-- The language of the `%d` group `3[01]|[12]\d|0[1-9]|[1-9]` as a full
segment: a digit string of length 1 or 2 with value 1-31. -/
def daySeg (l : List Char) : Bool :=
  l.all isDig && decide (1 ≤ l.length) && decide (l.length ≤ 2) &&
  decide (1 ≤ digitsVal l) && decide (digitsVal l ≤ 31)

/-- A calendar date `(year, month, day)` as carried by a Python `datetime`
at midnight (the only time-of-day produced by `strptime("%Y-%m-%d")`). -/
structure Date where
  y : Nat
  m : Nat
  d : Nat
  deriving DecidableEq

/-- Gregorian leap year, as in CPython's `datetime` module. -/
def leapYear (yr : Nat) : Bool := (decide (yr % 4 = 0) && decide (yr % 100 ≠ 0)) || decide (yr % 400 = 0)

/-- Days in a month, as in CPython's `datetime` module. -/
def daysInMonth (yr mo : Nat) : Nat :=
  if mo = 2 then (if leapYear yr then 29 else 28)
  else if mo = 4 ∨ mo = 6 ∨ mo = 9 ∨ mo = 11 then 30
  else 31

/-- The validation performed by the `datetime(year, month, day)` constructor:
`MINYEAR = 1 ≤ year ≤ MAXYEAR = 9999`, `1 ≤ month ≤ 12`,
`1 ≤ day ≤ daysInMonth`. -/
def Date.valid (dt : Date) : Bool :=
  decide (1 ≤ dt.y) && decide (dt.y ≤ 9999) && decide (1 ≤ dt.m) && decide (dt.m ≤ 12) &&
  decide (1 ≤ dt.d) && decide (dt.d ≤ daysInMonth dt.y dt.m)

/-- `datetime.strptime(s, "%Y-%m-%d")`, returning `none` where CPython
raises `ValueError`: the input must be exactly `\d\d\d\d` `-` month-segment
`-` day-segment (full consumption), and the numbers must pass the
`datetime` constructor. -/
def strptimeYmd (s : List Char) : Option Date :=
  match splitDash s with
  | [ys, ms, ds] =>
    if ys.all isDig && decide (ys.length = 4) && monthSeg ms && daySeg ds then
      if Date.valid ⟨digitsVal ys, digitsVal ms, digitsVal ds⟩ then
        some ⟨digitsVal ys, digitsVal ms, digitsVal ds⟩
      else none
    else none
  | _ => none

/-- Decimal digit character for `n % 10`. -/
def digCh (n : Nat) : Char := Char.ofNat (48 + n % 10)

/-- Two-digit zero-padded decimal rendering (for `%m`, `%d`; months and days
are at most 99 so two digits always suffice). -/
def pad2 (n : Nat) : List Char := [digCh (n / 10), digCh n]

/-- Four-digit zero-padded decimal rendering (for `%Y`; `datetime` years are
at most 9999 so four digits always suffice). -/
def pad4 (n : Nat) : List Char := [digCh (n / 1000), digCh (n / 100), digCh (n / 10), digCh n]

/-- `day.strftime("%Y-%m-%d")` for a valid date. -/
def strftimeYmd (dt : Date) : List Char :=
  pad4 dt.y ++ '-' :: (pad2 dt.m ++ '-' :: pad2 dt.d)

/-- `ElasticsearchLogs.index_name`: `self._index_prefix + day.strftime(INDEX_DATE_FORMAT)`. -/
def index_name (pfx : List Char) (day : Date) : List Char := pfx ++ strftimeYmd day

/-- `ElasticsearchLogs._valid_index_name`: the whole name must itself match
`VALID_INDEX_PATTERN`, must start with the prefix, must be at most 255
characters, and the suffix after the prefix (the code computes it with
`index.split(self._index_prefix, 1)[-1]`, which equals
`index[len(self._index_prefix):]` once `startswith` holds and the prefix is
nonempty) must parse under `%Y-%m-%d`; `ValueError` becomes `False`. -/
def valid_index_name (pfx index : List Char) : Bool :=
  if !(valid_index_pfx index) then false
  else if !(List.isPrefixOf pfx index) || decide (index.length > 255) then false
  else
    match strptimeYmd (index.drop pfx.length) with
    | some _ => true
    | none => false

/-- Days in all years before `yr` (CPython `datetime._days_before_year`). -/
def daysBeforeYear (yr : Nat) : Nat :=
  (yr - 1) * 365 + (yr - 1) / 4 - (yr - 1) / 100 + (yr - 1) / 400

/-- Days in all months of `yr` before month `mo`. -/
def daysBeforeMonth (yr mo : Nat) : Nat :=
  (List.range (mo - 1)).foldl (fun a i => a + daysInMonth yr (i + 1)) 0

/-- Proleptic-Gregorian ordinal of a date (`datetime.toordinal`).  Two
midnight `datetime`s compare, and their `timedelta` difference measures in
whole days, exactly as their ordinals do. -/
def Date.ord (dt : Date) : Nat := daysBeforeYear dt.y + daysBeforeMonth dt.y dt.m + dt.d

/-- Python exceptions that the modelled methods can raise or propagate. -/
inductive EsErr
  | notFound
  | unauthorized
  | transport
  deriving DecidableEq

/-- Exceptions escaping a modelled method: a failed `assert`, a `ValueError`,
an `AttributeError` (from using `self._client` while it is `None`), or a
propagated backend error. -/
inductive PyErr
  | assertionFailed
  | valueError
  | attributeError
  | backend (e : EsErr)
  deriving DecidableEq

/-- `can_delete_index(index, cutoff_date)`: re-asserts `_valid_index_name`,
parses the date from `index[len(self._index_prefix):]`, and returns
`index_dt < cutoff_date and cutoff_date - index_dt >= timedelta(days=1)`.
Both datetimes are midnights here (the parsed date is a midnight, and the
cutoff is taken as a calendar date), so `<` and the day-difference are the
ordinal comparison and ordinal difference. -/
def can_delete_index (pfx index : List Char) (cutoff : Date) : Except PyErr Bool :=
  if !(valid_index_name pfx index) then .error .assertionFailed
  else
    match strptimeYmd (index.drop pfx.length) with
    | none => .error .valueError
    | some dt =>
      .ok (decide (Date.ord dt < Date.ord cutoff) && decide (1 ≤ Date.ord cutoff - Date.ord dt))

/-- Backend responses for one call episode (the oracle standing in for the
live Elasticsearch cluster and the `elasticsearch_dsl` connection layer). -/
structure BackendResp where
  /-- Response to `indices.get_template(prefix)`; `none` means found. -/
  getTemplateResp : Option EsErr
  /-- Response to the `index_template.save` issued inside the `try` block
  (when the force-update flag makes `LogEntry.init` re-register). -/
  putTemplateResp1 : Option EsErr
  /-- Response to the `index_template.save` issued by the `except
  NotFoundError` handler. -/
  putTemplateResp2 : Option EsErr
  /-- Whether `connections.remove_connection` raises `KeyError`. -/
  removeRaisesKeyError : Bool
  /-- The set of index names existing on the backend. -/
  indexSet : List (List Char)
  /-- Forced error for `indices.get(prefix + "*")` in `list_indices`. -/
  getIndicesErr : Option EsErr
  /-- Forced error for `indices.get(index)` in `index_exists`. -/
  getIndexErr : Option EsErr
  /-- Response to `indices.delete(index)`. -/
  deleteResp : Option EsErr
  deriving DecidableEq

/-- The mutable state of an `ElasticsearchLogs` instance: its (immutable)
index prefix, the `FORCE_INDEX_TEMPLATE_UPDATE` environment flag, whether
`self._client` has been set (it is `None` until `_initialize` creates the
connection), and `self._initialized`. -/
structure EsLogs where
  idxPfx : List Char
  forceTemplateUpdate : Bool
  hasClient : Bool
  inited : Bool
  deriving DecidableEq

/-- A freshly constructed `ElasticsearchLogs(index_prefix=pfx)`:
`self._client = None`, `self._initialized = False`. -/
def mkEsLogs (pfx : List Char) (force : Bool) : EsLogs := ⟨pfx, force, false, false⟩

/-- Backend interactions, recorded in traces. -/
inductive EsCall
  /-- `connections.create_connection(...)` for the data plane (15s timeout). -/
  | createConn (timeoutSecs : Nat)
  /-- `connections.create_connection(alias=...)` for the template API (60s). -/
  | createTemplateConn (timeoutSecs : Nat)
  /-- `indices.get_template(prefix)`. -/
  | getTemplate (pfx : List Char)
  /-- `index_template.save(...)` (template registration); `ok` records
  whether the backend accepted it. -/
  | putTemplate (pfx : List Char) (ok : Bool)
  /-- `connections.remove_connection(alias)`; the flag records whether it
  raised `KeyError` (which the code catches and logs). -/
  | removeConn (raisedKeyError : Bool)
  /-- `indices.get(pattern)` from `list_indices`. -/
  | getIndices (pattern : List Char)
  /-- `indices.get(name)` from `index_exists`. -/
  | getIndex (name : List Char)
  /-- `indices.delete(name)`. -/
  | deleteIdx (name : List Char)
  deriving DecidableEq

/-- The `try` block of `_initialize`: `indices.get_template(prefix)` then
`LogEntry.init(..., skip_template_init=not force_template_update)`, which
saves the template iff the force flag is set. -/
def initTryRes (b : BackendResp) (pfx : List Char) (force : Bool) :
    Except EsErr Unit × List EsCall :=
  match b.getTemplateResp with
  | some e => (.error e, [.getTemplate pfx])
  | none =>
    if force then
      match b.putTemplateResp1 with
      | some e => (.error e, [.getTemplate pfx, .putTemplate pfx false])
      | none => (.ok (), [.getTemplate pfx, .putTemplate pfx true])
    else
      (.ok (), [.getTemplate pfx])

/-- The `try`/`except NotFoundError` of `_initialize`: a `NotFoundError`
from the `try` block triggers `LogEntry.init(..., skip_template_init=False)`
(an unconditional template save); any other error propagates. -/
def initAfterTry (b : BackendResp) (pfx : List Char) (force : Bool) :
    Except EsErr Unit × List EsCall :=
  match initTryRes b pfx force with
  | (.error .notFound, cs) =>
    match b.putTemplateResp2 with
    | some e => (.error e, cs ++ [.putTemplate pfx false])
    | none => (.ok (), cs ++ [.putTemplate pfx true])
  | r => r

/-- `ElasticsearchLogs._initialize`: a no-op when `self._initialized`;
otherwise creates the data-plane and template connections (setting
`self._client` before anything can fail), runs the `try`/`except`/`finally`
(the `finally` removes the template connection, swallowing a `KeyError`),
and sets `self._initialized = True` only if no error propagates. -/
def esInit (b : BackendResp) (m : EsLogs) : Except EsErr Unit × EsLogs × List EsCall :=
  if m.inited then (.ok (), m, [])
  else
    let a := initAfterTry b m.idxPfx m.forceTemplateUpdate
    let trace := EsCall.createConn 15 :: EsCall.createTemplateConn 60 ::
      (a.2 ++ [EsCall.removeConn b.removeRaisesKeyError])
    match a.1 with
    | .error e => (.error e, { m with hasClient := true }, trace)
    | .ok () => (.ok (), { m with hasClient := true, inited := true }, trace)

/-- `ElasticsearchLogs.list_indices`: `self._initialize()` first, then
`indices.get(prefix + "*")`; `NotFoundError` gives `[]`,
`AuthorizationException` gives Python `None` (modelled as `none`), other
errors propagate.  On success the backend returns the names matching the
wildcard pattern, i.e. those starting with the prefix. -/
def esListIndices (b : BackendResp) (m : EsLogs) :
    Except PyErr (Option (List (List Char))) × EsLogs × List EsCall :=
  match esInit b m with
  | (.error e, m1, cs) => (.error (.backend e), m1, cs)
  | (.ok (), m1, cs) =>
    let call := EsCall.getIndices (m.idxPfx ++ ['*'])
    match b.getIndicesErr with
    | some .notFound => (.ok (some []), m1, cs ++ [call])
    | some .unauthorized => (.ok none, m1, cs ++ [call])
    | some .transport => (.error (.backend .transport), m1, cs ++ [call])
    | none => (.ok (some (b.indexSet.filter (fun nm => List.isPrefixOf m.idxPfx nm))), m1, cs ++ [call])

/-- `ElasticsearchLogs.delete_index`: `self._initialize()`, then
`assert self._valid_index_name(index)`, then `indices.delete(index)`;
returns the name on success, Python `None` (modelled `none`) on
`NotFoundError` and also on `AuthorizationException`; other errors
propagate. -/
def esDeleteIndex (b : BackendResp) (m : EsLogs) (index : List Char) :
    Except PyErr (Option (List Char)) × EsLogs × List EsCall :=
  match esInit b m with
  | (.error e, m1, cs) => (.error (.backend e), m1, cs)
  | (.ok (), m1, cs) =>
    if !(valid_index_name m.idxPfx index) then (.error .assertionFailed, m1, cs)
    else
      let call := EsCall.deleteIdx index
      match b.deleteResp with
      | none => (.ok (some index), m1, cs ++ [call])
      | some .notFound => (.ok none, m1, cs ++ [call])
      | some .unauthorized => (.ok none, m1, cs ++ [call])
      | some .transport => (.error (.backend .transport), m1, cs ++ [call])

/-- `ElasticsearchLogs.index_exists`: no initialization call; it evaluates
`index in self._client.indices.get(index)` directly, so with `self._client`
still `None` it raises `AttributeError` before any backend contact;
`NotFoundError` maps to `False`. -/
def esIndexExists (b : BackendResp) (m : EsLogs) (index : List Char) :
    Except PyErr Bool × EsLogs × List EsCall :=
  if !m.hasClient then (.error .attributeError, m, [])
  else
    let call := EsCall.getIndex index
    match b.getIndexErr with
    | some .notFound => (.ok false, m, [call])
    | some .unauthorized => (.error (.backend .unauthorized), m, [call])
    | some .transport => (.error (.backend .transport), m, [call])
    | none => (.ok (b.indexSet.contains index), m, [call])

/-- The operations a caller can invoke on one manager instance. -/
inductive EsOp
  | opInit
  | opList
  | opDelete (nm : List Char)
  | opExists (nm : List Char)

/-- Run one operation, keeping the state transition and the backend trace. -/
def runEsOp (b : BackendResp) (m : EsLogs) : EsOp → EsLogs × List EsCall
  | .opInit => (esInit b m).2
  | .opList => (esListIndices b m).2
  | .opDelete nm => (esDeleteIndex b m nm).2
  | .opExists nm => (esIndexExists b m nm).2

/-- Run a sequence of operations, each step against its own backend
responses, concatenating the traces. -/
def runEsOps : EsLogs → List (EsOp × BackendResp) → EsLogs × List EsCall
  | m, [] => (m, [])
  | m, (o, b) :: rest =>
    let st := runEsOp b m o
    let st2 := runEsOps st.1 rest
    (st2.1, st.2 ++ st2.2)

/-- A successful template registration event. -/
def isReg : EsCall → Bool
  | .putTemplate _ ok => ok
  | _ => false

/-- Number of successful template registrations in a trace. -/
def regCount (t : List EsCall) : Nat := t.countP isReg

/-- A data-plane delete call. -/
def isDeleteCall : EsCall → Bool
  | .deleteIdx _ => true
  | _ => false

/-- The default index prefix `INDEX_NAME_PREFIX = "logentry_"`. -/
def logPfx : List Char := "logentry_".toList

/-- The prefix-validity condition exactly as the specification words it:
1-255 characters, no character outside the class (no uppercase, none of
`: / * ? " < > | , #` or space), not equal to `.` or `..`, and not starting
with `-`, `_` or `+`. -/
def prefix_ok_claimed (s : List Char) : Bool :=
  decide (1 ≤ s.length) && decide (s.length ≤ 255) && s.all allowedChar &&
  !(decide (s = ['.'])) && !(decide (s = ['.', '.'])) &&
  !(decide (s.headD 'x' = '-')) && !(decide (s.headD 'x' = '_')) && !(decide (s.headD 'x' = '+'))

/-- The corrected prefix-validity condition: like `prefix_ok_claimed`, but
accounting for Python `$` matching just before a final newline: `.` and
`..` followed by one trailing newline are also rejected, and a string of
length 256 whose last character is a newline is additionally accepted. -/
def valid_index_pfx_amended (s : List Char) : Bool :=
  !(decide (s = ['.']) || decide (s = ['.', '\n']) || decide (s = ['.', '.']) ||
    decide (s = ['.', '.', '\n']) ||
    decide (s.headD 'x' = '-') || decide (s.headD 'x' = '_') || decide (s.headD 'x' = '+')) &&
  s.all allowedChar &&
  ((decide (1 ≤ s.length) && decide (s.length ≤ 255)) ||
    (decide (s.length = 256) && decide (s.getLast? = some '\n')))

/-- A backend where every call succeeds and no index exists. -/
def bOk : BackendResp := ⟨none, none, none, false, [], none, none, none⟩

/-- A backend whose template lookup fails with a transport error. -/
def bGetFailT : BackendResp := ⟨some .transport, none, none, false, [], none, none, none⟩

/-- A backend whose `indices.delete` answers `NotFoundError`. -/
def bDelNF : BackendResp := ⟨none, none, none, false, [], none, none, some .notFound⟩

/-- A backend whose `indices.delete` answers `AuthorizationException`. -/
def bDelAuth : BackendResp := ⟨none, none, none, false, [], none, none, some .unauthorized⟩

/-- A backend whose `indices.get(prefix + "*")` answers `NotFoundError`. -/
def bListNF : BackendResp := ⟨none, none, none, false, [], some .notFound, none, none⟩

/-- A backend whose `indices.get(prefix + "*")` answers
`AuthorizationException`. -/
def bListAuth : BackendResp := ⟨none, none, none, false, [], some .unauthorized, none, none⟩

/-- A backend whose `indices.get(name)` answers `NotFoundError`. -/
def bExistsNF : BackendResp := ⟨none, none, none, false, [], none, some .notFound, none⟩

/-- A name under the default prefix whose suffix is not a date. -/
def badName : List Char := "logentry_oops".toList

/-- A backend holding exactly one index, whose name fails validation. -/
def bListBad : BackendResp := ⟨none, none, none, false, [badName], none, none, none⟩

/-- An already-initialized manager with the default prefix. -/
def mReady : EsLogs := ⟨logPfx, false, true, true⟩

/-- A freshly constructed manager with the default prefix. -/
def mFresh : EsLogs := mkEsLogs logPfx false

/-- The manager state left behind by an `_initialize` call whose template
lookup failed with a transport error: the client connection exists but the
initialized flag is still `False`. -/
def mFailed : EsLogs := (esInit bGetFailT mFresh).2.1

/-- A valid index name used as a concrete input. -/
def nmA : List Char := "logentry_2024-03-12".toList

/-- Another valid index name used as a concrete input. -/
def nmB : List Char := "logentry_2024-04-01".toList

/-- A 246-character prefix: accepted by `_valid_index_prefix`, but too long
for any daily index name under it to be valid. -/
def pLong : List Char := List.replicate 246 'a'

set_option maxRecDepth 10000

/-- Decomposition of a nonempty list as its first `length - 1` elements plus
its last element. -/
theorem split_last (l : List Char) (h : l ≠ []) :
    ∃ l0 c, l = l0 ++ [c] ∧ l.getLast? = some c ∧ l.take (l.length - 1) = l0 ∧
      l.length = l0.length + 1 := by
  obtain ⟨l0, c, hconc⟩ := (List.eq_nil_or_concat l).resolve_left h
  rw [List.concat_eq_append] at hconc
  subst hconc
  refine ⟨l0, c, rfl, List.getLast?_concat l0, ?_, by simp⟩
  simp [@List.take_left' Char l0 [c] l0.length rfl]

/-- Characterization of `valid_index_pfx` minus the lookahead: the body plus
`$` matches iff either the whole string has length 1-255 and all its
characters are in the class, or the string has length 256, ends in a
newline (so `$` matches just before it), and again all characters are in
the class (a final newline is itself in the class). -/
theorem vip_iff (s : List Char) :
    valid_index_pfx s = true ↔
      (lookaheadFails s = false ∧ s.all allowedChar = true ∧
        ((1 ≤ s.length ∧ s.length ≤ 255) ∨ (s.length = 256 ∧ s.getLast? = some '\n'))) := by
  unfold valid_index_pfx
  rw [Bool.and_eq_true, Bool.not_eq_true']
  constructor
  · rintro ⟨hla, hany⟩
    rw [List.any_eq_true] at hany
    obtain ⟨k, _, hk⟩ := hany
    unfold bodyMatchAt dollarAt at hk
    simp only [Bool.and_eq_true, Bool.or_eq_true, decide_eq_true_eq] at hk
    obtain ⟨⟨⟨⟨hk1, hk255⟩, hdol⟩, htk⟩, hall⟩ := hk
    refine ⟨hla, ?_⟩
    rcases hdol with hkl | ⟨hkl, hlast⟩
    · subst hkl
      rw [List.take_length] at hall
      exact ⟨hall, Or.inl ⟨by omega, by omega⟩⟩
    · have hne : s ≠ [] := by
        intro hnil; rw [hnil] at hkl; simp at hkl
      obtain ⟨l0, c, hdec, hgl, htake, hlen⟩ := split_last s hne
      have hkeq : k = s.length - 1 := by omega
      rw [hkeq, htake] at hall
      have hc : c = '\n' := by
        rw [hgl] at hlast; exact Option.some.inj hlast
      have hsall : s.all allowedChar = true := by
        rw [hdec, List.all_append, hall, List.all_cons, List.all_nil, hc]
        decide
      refine ⟨hsall, ?_⟩
      by_cases hle : s.length ≤ 255
      · exact Or.inl ⟨by omega, hle⟩
      · exact Or.inr ⟨by omega, hlast⟩
  · rintro ⟨hla, hall, hcase⟩
    refine ⟨hla, List.any_eq_true.mpr ?_⟩
    rcases hcase with ⟨h1, h2⟩ | ⟨h256, hlast⟩
    · refine ⟨s.length, List.mem_range.mpr (by omega), ?_⟩
      unfold bodyMatchAt dollarAt
      simp only [Bool.and_eq_true, Bool.or_eq_true, decide_eq_true_eq, List.take_length]
      exact ⟨⟨⟨⟨h1, h2⟩, Or.inl trivial⟩, trivial⟩, hall⟩
    · have hne : s ≠ [] := by
        intro hnil; rw [hnil] at h256; simp at h256
      obtain ⟨l0, c, hdec, hgl, _, hlen⟩ := split_last s hne
      have hl0 : l0.length = 255 := by omega
      have htk : s.take 255 = l0 := by
        rw [hdec]; exact List.take_left' hl0
      have hall0 : l0.all allowedChar = true := by
        rw [hdec, List.all_append, Bool.and_eq_true] at hall
        exact hall.1
      refine ⟨255, List.mem_range.mpr (by omega), ?_⟩
      unfold bodyMatchAt dollarAt
      simp only [Bool.and_eq_true, Bool.or_eq_true, decide_eq_true_eq, htk]
      exact ⟨⟨⟨⟨by omega, by omega⟩, Or.inr ⟨by omega, hlast⟩⟩, hl0⟩, hall0⟩

/-- The lookahead fails exactly on `.`, `..` (each optionally followed by a
single trailing newline, because of Python's `$` semantics) and on strings
starting with `-`, `_` or `+`. -/
theorem lookaheadFails_iff (s : List Char) :
    lookaheadFails s = true ↔
      (s = ['.'] ∨ s = ['.', '\n'] ∨ s = ['.', '.'] ∨ s = ['.', '.', '\n'] ∨
       s.headD 'x' = '-' ∨ s.headD 'x' = '_' ∨ s.headD 'x' = '+') := by
  rcases s with _ | ⟨a, _ | ⟨b, _ | ⟨c, _ | ⟨d, t⟩⟩⟩⟩
  · simp [lookaheadFails]
  · simp [lookaheadFails, dollarAt]
    tauto
  · simp [lookaheadFails, dollarAt]
    tauto
  · simp [lookaheadFails, dollarAt]
    tauto
  · simp [lookaheadFails, dollarAt]
    tauto

/-- Facts about a digit character: it is an ASCII digit, lies in the regex
character class, differs from the separator and from a newline, and its
codepoint determines `n % 10`. -/
theorem digCh_spec (n : Nat) :
    isDig (digCh n) = true ∧ allowedChar (digCh n) = true ∧ digCh n ≠ '-' ∧
      digCh n ≠ '\n' ∧ (digCh n).toNat = 48 + n % 10 := by
  have h : n % 10 < 10 := Nat.mod_lt _ (by omega)
  unfold digCh
  revert h
  generalize n % 10 = r
  intro h
  interval_cases r <;> exact ⟨by decide, by decide, by decide, by decide, by decide⟩

/-- The value read back from a four-digit zero-padded rendering. -/
theorem digitsVal_pad4 (n : Nat) (h : n ≤ 9999) : digitsVal (pad4 n) = n := by
  have h1 := (digCh_spec (n / 1000)).2.2.2.2
  have h2 := (digCh_spec (n / 100)).2.2.2.2
  have h3 := (digCh_spec (n / 10)).2.2.2.2
  have h4 := (digCh_spec n).2.2.2.2
  simp only [digitsVal, pad4, List.foldl_cons, List.foldl_nil, h1, h2, h3, h4]
  omega

/-- The value read back from a two-digit zero-padded rendering. -/
theorem digitsVal_pad2 (n : Nat) (h : n ≤ 99) : digitsVal (pad2 n) = n := by
  have h3 := (digCh_spec (n / 10)).2.2.2.2
  have h4 := (digCh_spec n).2.2.2.2
  simp only [digitsVal, pad2, List.foldl_cons, List.foldl_nil, h3, h4]
  omega

/-- Every character of a padded rendering is a digit, is in the regex class,
and is neither `-` nor a newline. -/
theorem pad4_chars (n : Nat) :
    ∀ c ∈ pad4 n, isDig c = true ∧ allowedChar c = true ∧ c ≠ '-' ∧ c ≠ '\n' := by
  intro c hc
  simp only [pad4, List.mem_cons, List.not_mem_nil, or_false] at hc
  rcases hc with h | h | h | h <;> subst h <;>
    exact ⟨(digCh_spec _).1, (digCh_spec _).2.1, (digCh_spec _).2.2.1, (digCh_spec _).2.2.2.1⟩

/-- Every character of a two-digit rendering is a digit, is in the regex
class, and is neither `-` nor a newline. -/
theorem pad2_chars (n : Nat) :
    ∀ c ∈ pad2 n, isDig c = true ∧ allowedChar c = true ∧ c ≠ '-' ∧ c ≠ '\n' := by
  intro c hc
  simp only [pad2, List.mem_cons, List.not_mem_nil, or_false] at hc
  rcases hc with h | h <;> subst h <;>
    exact ⟨(digCh_spec _).1, (digCh_spec _).2.1, (digCh_spec _).2.2.1, (digCh_spec _).2.2.2.1⟩

/-- `splitDash` never returns the empty list of segments. -/
theorem splitDash_ne_nil (l : List Char) : splitDash l ≠ [] := by
  induction l with
  | nil => simp [splitDash]
  | cons c t ih =>
    unfold splitDash
    cases h : splitDash t with
    | nil => exact absurd h ih
    | cons h0 t0 =>
      by_cases hc : c = '-' <;> simp [hc]

/-- A dash-free list is a single segment. -/
theorem splitDash_no (l : List Char) (h : ∀ c ∈ l, c ≠ '-') : splitDash l = [l] := by
  induction l with
  | nil => rfl
  | cons c t ih =>
    have hc : c ≠ '-' := h c (List.mem_cons_self c t)
    unfold splitDash
    rw [ih (fun x hx => h x (List.mem_cons_of_mem c hx))]
    simp [hc]

/-- Splitting peels off a dash-free first segment. -/
theorem splitDash_append (l r : List Char) (h : ∀ c ∈ l, c ≠ '-') :
    splitDash (l ++ '-' :: r) = l :: splitDash r := by
  induction l with
  | nil =>
    obtain ⟨h0, t0, heq⟩ := List.exists_cons_of_ne_nil (splitDash_ne_nil r)
    simp only [List.nil_append]
    conv_lhs => rw [splitDash.eq_def]
    simp [heq]
  | cons c t ih =>
    have hc : c ≠ '-' := h c (List.mem_cons_self c t)
    simp only [List.cons_append]
    conv_lhs => rw [splitDash.eq_def]
    simp [ih (fun x hx => h x (List.mem_cons_of_mem c hx)), hc]

/-- No month has more than 31 days. -/
theorem daysInMonth_le_31 (yr mo : Nat) : daysInMonth yr mo ≤ 31 := by
  unfold daysInMonth
  split
  · split <;> omega
  · split <;> omega


/-- The parser only returns constructor-validated dates. -/
theorem strptime_valid (s : List Char) (dt : Date) (h : strptimeYmd s = some dt) :
    Date.valid dt = true := by
  unfold strptimeYmd at h
  rcases hs : splitDash s with _ | ⟨ys, _ | ⟨ms, _ | ⟨ds, _ | ⟨x, t⟩⟩⟩⟩ <;> rw [hs] at h
  · simp at h
  · simp at h
  · simp at h
  · simp only [Option.ite_none_right_eq_some, Option.some.injEq] at h
    obtain ⟨-, hv, hdt⟩ := h
    rw [← hdt]
    exact hv
  · simp at h

/-- Formatting a constructor-valid date and parsing it back yields the same
date (the zero-padded fields are parsed by the same `%Y-%m-%d` groups). -/
theorem strptime_strftime (dt : Date) (h : Date.valid dt = true) :
    strptimeYmd (strftimeYmd dt) = some dt := by
  unfold Date.valid at h
  simp only [Bool.and_eq_true, decide_eq_true_eq] at h
  obtain ⟨⟨⟨⟨⟨hy1, hy2⟩, hm1⟩, hm2⟩, hd1⟩, hd2⟩ := h
  have hd31 : dt.d ≤ 31 := le_trans hd2 (daysInMonth_le_31 _ _)
  have hm99 : dt.m ≤ 99 := by omega
  have hd99 : dt.d ≤ 99 := by omega
  have hsplit : splitDash (strftimeYmd dt) = [pad4 dt.y, pad2 dt.m, pad2 dt.d] := by
    unfold strftimeYmd
    rw [splitDash_append _ _ (fun c hc => (pad4_chars dt.y c hc).2.2.1)]
    rw [splitDash_append _ _ (fun c hc => (pad2_chars dt.m c hc).2.2.1)]
    rw [splitDash_no _ (fun c hc => (pad2_chars dt.d c hc).2.2.1)]
  have h4dig : (pad4 dt.y).all isDig = true :=
    List.all_eq_true.mpr (fun c hc => (pad4_chars dt.y c hc).1)
  have hmdig : (pad2 dt.m).all isDig = true :=
    List.all_eq_true.mpr (fun c hc => (pad2_chars dt.m c hc).1)
  have hddig : (pad2 dt.d).all isDig = true :=
    List.all_eq_true.mpr (fun c hc => (pad2_chars dt.d c hc).1)
  have hy : digitsVal (pad4 dt.y) = dt.y := digitsVal_pad4 dt.y hy2
  have hm : digitsVal (pad2 dt.m) = dt.m := digitsVal_pad2 dt.m hm99
  have hd : digitsVal (pad2 dt.d) = dt.d := digitsVal_pad2 dt.d hd99
  have hmseg : monthSeg (pad2 dt.m) = true := by
    unfold monthSeg
    rw [hmdig, hm]
    simp [pad2]
    omega
  have hdseg : daySeg (pad2 dt.d) = true := by
    unfold daySeg
    rw [hddig, hd]
    simp [pad2]
    omega
  have hvalid : Date.valid ⟨dt.y, dt.m, dt.d⟩ = true := by
    unfold Date.valid
    simp only [Bool.and_eq_true, decide_eq_true_eq]
    exact ⟨⟨⟨⟨⟨hy1, hy2⟩, hm1⟩, hm2⟩, hd1⟩, hd2⟩
  unfold strptimeYmd
  rw [hsplit]
  simp only [h4dig, hmseg, hdseg, hy, hm, hd, hvalid, Bool.true_and, Bool.and_true]
  simp [pad4]

/-- A formatted date is exactly 10 characters. -/
theorem strftime_length (dt : Date) : (strftimeYmd dt).length = 10 := by
  simp [strftimeYmd, pad4, pad2]

/-- All characters of a formatted date (digits and `-`) lie in the regex
character class. -/
theorem strftime_all_allowed (dt : Date) : (strftimeYmd dt).all allowedChar = true := by
  unfold strftimeYmd
  simp only [List.all_append, List.all_cons, Bool.and_eq_true]
  refine ⟨List.all_eq_true.mpr (fun c hc => (pad4_chars dt.y c hc).2.1), by decide,
    List.all_eq_true.mpr (fun c hc => (pad2_chars dt.m c hc).2.1), by decide,
    List.all_eq_true.mpr (fun c hc => (pad2_chars dt.d c hc).2.1)⟩

/-- A formatted date ends in a digit (in particular not in a newline). -/
theorem strftime_last_digit (dt : Date) : (strftimeYmd dt).getLast? = some (digCh dt.d) := by
  unfold strftimeYmd pad2
  rw [show (pad4 dt.y ++ '-' :: ([digCh (dt.m / 10), digCh dt.m] ++ '-' :: [digCh (dt.d / 10), digCh dt.d]))
      = (pad4 dt.y ++ '-' :: ([digCh (dt.m / 10), digCh dt.m] ++ ['-', digCh (dt.d / 10)])) ++ [digCh dt.d] by simp]
  exact List.getLast?_concat _

/-- `startswith` holds for a concatenation with its own first part. -/
theorem isPrefixOf_append_self (l r : List Char) : List.isPrefixOf l (l ++ r) = true :=
  List.isPrefixOf_iff_prefix.mpr (List.prefix_append l r)

/-- Appending at least ten characters to a nonempty prefix that passes the
lookahead yields a string that still passes it: the dot alternatives need a
string of length at most 3, and the first character is unchanged. -/
theorem lookahead_append (p s : List Char) (hp : 1 ≤ p.length)
    (h11 : 11 ≤ p.length + s.length) (hla : lookaheadFails p = false) :
    lookaheadFails (p ++ s) = false := by
  rcases p with _ | ⟨a, t⟩
  · simp at hp
  have hlen : 11 ≤ ((a :: t) ++ s).length := by simp at h11 ⊢; omega
  have hd1 : dollarAt ((a :: t) ++ s) 1 = false := by
    unfold dollarAt
    simp only [Bool.or_eq_false_iff, Bool.and_eq_false_iff, decide_eq_false_iff_not]
    constructor
    · omega
    · left; omega
  have hd2 : dollarAt ((a :: t) ++ s) 2 = false := by
    unfold dollarAt
    simp only [Bool.or_eq_false_iff, Bool.and_eq_false_iff, decide_eq_false_iff_not]
    constructor
    · omega
    · left; omega
  unfold lookaheadFails at hla ⊢
  simp only [List.cons_append, List.headD, hd1, hd2, Bool.and_false, Bool.false_or,
    Bool.or_eq_false_iff] at *
  exact ⟨⟨hla.1.1.2, hla.1.2⟩, hla.2⟩

/-- Main construction: for a prefix accepted by the pattern and short enough
that the full name fits in 255 characters, the generated name for any
constructor-valid date passes `_valid_index_name`, and parsing its suffix
recovers the date. -/
theorem valid_name_general (p : List Char) (dt : Date)
    (hp : valid_index_pfx p = true) (hlen : p.length + 10 ≤ 255)
    (hd : Date.valid dt = true) :
    valid_index_name p (index_name p dt) = true ∧
      strptimeYmd ((index_name p dt).drop p.length) = some dt := by
  obtain ⟨hla, hall, hcase⟩ := (vip_iff p).mp hp
  have hp1 : 1 ≤ p.length := by rcases hcase with ⟨h1, _⟩ | ⟨h1, _⟩ <;> omega
  have hnlen : (index_name p dt).length = p.length + 10 := by
    simp [index_name, strftime_length]
  have hnall : (index_name p dt).all allowedChar = true := by
    simp [index_name, List.all_append, hall, strftime_all_allowed]
  have hnla : lookaheadFails (index_name p dt) = false := by
    apply lookahead_append p _ hp1 _ hla
    rw [strftime_length]; omega
  have hvipn : valid_index_pfx (index_name p dt) = true :=
    (vip_iff _).mpr ⟨hnla, hnall, Or.inl ⟨by omega, by omega⟩⟩
  have hdrop : (index_name p dt).drop p.length = strftimeYmd dt := by
    simp [index_name]
  have hpref : List.isPrefixOf p (index_name p dt) = true := isPrefixOf_append_self _ _
  refine ⟨?_, by rw [hdrop]; exact strptime_strftime dt hd⟩
  unfold valid_index_name
  rw [hvipn, hpref, hdrop, strptime_strftime dt hd]
  simp
  omega

/-- Per-run facts about the try/except part of initialization: at most one
successful template registration, a successful registration only happens in
a run that completes without error, and no delete call is ever issued. -/
theorem aT_facts (b : BackendResp) (pfx : List Char) (force : Bool) :
    regCount (initAfterTry b pfx force).2 ≤ 1 ∧
      (1 ≤ regCount (initAfterTry b pfx force).2 → (initAfterTry b pfx force).1 = .ok ()) ∧
      (initAfterTry b pfx force).2.any isDeleteCall = false := by
  unfold initAfterTry initTryRes
  cases hg : b.getTemplateResp with
  | none =>
    cases force with
    | false => simp [regCount, isReg, isDeleteCall]
    | true =>
      cases hp1 : b.putTemplateResp1 with
      | none => simp [regCount, isReg, isDeleteCall]
      | some e1 =>
        cases e1 with
        | notFound =>
          cases hp2 : b.putTemplateResp2 with
          | none => simp [regCount, isReg, isDeleteCall]
          | some e2 => simp [regCount, isReg, isDeleteCall]
        | unauthorized => simp [regCount, isReg, isDeleteCall]
        | transport => simp [regCount, isReg, isDeleteCall]
  | some e =>
    cases e with
    | notFound =>
      cases hp2 : b.putTemplateResp2 with
      | none => simp [regCount, isReg, isDeleteCall]
      | some e2 => simp [regCount, isReg, isDeleteCall]
    | unauthorized => simp [regCount, isReg, isDeleteCall]
    | transport => simp [regCount, isReg, isDeleteCall]

/-- On an already-initialized manager, `_initialize` returns immediately:
no state change and no backend interaction of any kind. -/
theorem esInit_inited (b : BackendResp) (m : EsLogs) (h : m.inited = true) :
    esInit b m = (.ok (), m, []) := by
  simp [esInit, h]

/-- On a non-initialized manager, the trace is: create the two connections,
run the try/except, and remove the template connection last. -/
theorem esInit_trace (b : BackendResp) (m : EsLogs) (h : m.inited = false) :
    (esInit b m).2.2 = EsCall.createConn 15 :: EsCall.createTemplateConn 60 ::
      ((initAfterTry b m.idxPfx m.forceTemplateUpdate).2 ++
        [EsCall.removeConn b.removeRaisesKeyError]) := by
  unfold esInit
  rw [h]
  simp only [Bool.false_eq_true, if_false]
  cases ha : (initAfterTry b m.idxPfx m.forceTemplateUpdate).1 with
  | error e => simp [ha]
  | ok u => cases u; simp [ha]

/-- One `_initialize` run performs at most one successful registration; a
successful registration forces the run to complete (leaving the manager
initialized); no delete call is ever issued during initialization. -/
theorem esInit_regCount (b : BackendResp) (m : EsLogs) :
    regCount (esInit b m).2.2 ≤ 1 ∧
      (1 ≤ regCount (esInit b m).2.2 → (esInit b m).2.1.inited = true) ∧
      (esInit b m).2.2.any isDeleteCall = false := by
  cases hm : m.inited with
  | true => simp [esInit_inited b m hm, regCount]
  | false =>
    obtain ⟨h1, h2, h3⟩ := aT_facts b m.idxPfx m.forceTemplateUpdate
    have ht := esInit_trace b m hm
    have hcount : regCount (esInit b m).2.2 =
        regCount (initAfterTry b m.idxPfx m.forceTemplateUpdate).2 := by
      rw [ht]
      simp [regCount, List.countP_cons, List.countP_append, isReg]
    refine ⟨by omega, ?_, ?_⟩
    · intro hge
      rw [hcount] at hge
      have hok := h2 hge
      unfold esInit
      rw [hm]
      simp only [Bool.false_eq_true, if_false, hok]
    · rw [ht]
      simp [List.any_append, isDeleteCall, h3]

/-- The manager ends a `_initialize` call initialized exactly when the call
returned without raising. -/
theorem esInit_inited_after (b : BackendResp) (m : EsLogs) :
    (esInit b m).2.1.inited = true ↔ (esInit b m).1 = .ok () := by
  cases hm : m.inited with
  | true => simp [esInit_inited b m hm, hm]
  | false =>
    unfold esInit
    rw [hm]
    simp only [Bool.false_eq_true, if_false]
    cases ha : (initAfterTry b m.idxPfx m.forceTemplateUpdate).1 with
    | error e => simp [ha, hm]
    | ok u => cases u; simp [ha]

/-- `_initialize` never changes the index prefix. -/
theorem esInit_idxPfx (b : BackendResp) (m : EsLogs) : (esInit b m).2.1.idxPfx = m.idxPfx := by
  unfold esInit
  cases hm : m.inited
  · simp only [Bool.false_eq_true, if_false]
    cases ha : (initAfterTry b m.idxPfx m.forceTemplateUpdate).1 with
    | error e => simp [ha]
    | ok u => cases u; simp [ha]
  · simp

/-- `list_indices` leaves the state as `_initialize` left it; its trace is
the initialization trace plus, only when initialization succeeded, the one
data-plane `indices.get` call (never a registration or a delete). -/
theorem esList_shape (b : BackendResp) (m : EsLogs) :
    (esListIndices b m).2.1 = (esInit b m).2.1 ∧
    ∃ tail, (esListIndices b m).2.2 = (esInit b m).2.2 ++ tail ∧
      (∀ c ∈ tail, isReg c = false ∧ isDeleteCall c = false) ∧
      ((esInit b m).1 ≠ .ok () → tail = []) := by
  rcases he : esInit b m with ⟨r, m1, cs⟩
  unfold esListIndices
  rw [he]
  cases r with
  | error e =>
    exact ⟨rfl, [], by simp, fun c hc => absurd hc (List.not_mem_nil c), fun _ => rfl⟩
  | ok u =>
    cases u
    cases hge : b.getIndicesErr with
    | none =>
      exact ⟨rfl, [EsCall.getIndices (m.idxPfx ++ ['*'])], rfl,
        by simp [isReg, isDeleteCall], fun hcon => absurd rfl hcon⟩
    | some e =>
      cases e <;>
        exact ⟨rfl, [EsCall.getIndices (m.idxPfx ++ ['*'])], rfl,
          by simp [isReg, isDeleteCall], fun hcon => absurd rfl hcon⟩

/-- `delete_index` leaves the state as `_initialize` left it; its trace is
the initialization trace plus at most one `indices.delete` call, which is
only present when initialization succeeded and the name passed validation. -/
theorem esDelete_shape (b : BackendResp) (m : EsLogs) (nm : List Char) :
    (esDeleteIndex b m nm).2.1 = (esInit b m).2.1 ∧
    ∃ tail, (esDeleteIndex b m nm).2.2 = (esInit b m).2.2 ++ tail ∧
      (∀ c ∈ tail, isReg c = false) ∧
      (tail = [] ∨ tail = [EsCall.deleteIdx nm]) ∧
      ((esInit b m).1 ≠ .ok () → tail = []) ∧
      (valid_index_name m.idxPfx nm = false → tail = []) := by
  rcases he : esInit b m with ⟨r, m1, cs⟩
  unfold esDeleteIndex
  rw [he]
  cases r with
  | error e =>
    refine ⟨rfl, [], by simp, fun c hc => absurd hc (List.not_mem_nil c), Or.inl rfl,
      fun _ => rfl, fun _ => rfl⟩
  | ok u =>
    cases u
    cases hv : valid_index_name m.idxPfx nm with
    | false =>
      refine ⟨rfl, [], by simp, fun c hc => absurd hc (List.not_mem_nil c), Or.inl rfl,
        fun _ => rfl, fun _ => rfl⟩
    | true =>
      simp only [Bool.not_true, Bool.false_eq_true, if_false]
      cases hd : b.deleteResp with
      | none =>
        exact ⟨rfl, [EsCall.deleteIdx nm], rfl, by simp [isReg], Or.inr rfl,
          fun hcon => absurd rfl hcon, fun hcon => nomatch hcon⟩
      | some e =>
        cases e <;>
          exact ⟨rfl, [EsCall.deleteIdx nm], rfl, by simp [isReg], Or.inr rfl,
            fun hcon => absurd rfl hcon, fun hcon => nomatch hcon⟩

/-- `index_exists` never changes the state and performs at most one
`indices.get` call, never a registration or a delete. -/
theorem esExists_shape (b : BackendResp) (m : EsLogs) (nm : List Char) :
    (esIndexExists b m nm).2.1 = m ∧
    ∃ tail, (esIndexExists b m nm).2.2 = tail ∧
      (∀ c ∈ tail, isReg c = false ∧ isDeleteCall c = false) := by
  unfold esIndexExists
  cases hc : m.hasClient with
  | false => exact ⟨rfl, [], rfl, fun c hcm => absurd hcm (List.not_mem_nil c)⟩
  | true =>
    simp only [Bool.not_true, Bool.false_eq_true, if_false]
    cases hge : b.getIndexErr with
    | none => exact ⟨rfl, [EsCall.getIndex nm], rfl, by simp [isReg, isDeleteCall]⟩
    | some e =>
      cases e <;> exact ⟨rfl, [EsCall.getIndex nm], rfl, by simp [isReg, isDeleteCall]⟩

/-- Per-operation accounting: one operation performs at most one successful
registration; a successful registration leaves the manager initialized; on
an initialized manager no operation registers, and the manager stays
initialized. -/
theorem runEsOp_facts (b : BackendResp) (m : EsLogs) (o : EsOp) :
    regCount (runEsOp b m o).2 ≤ 1 ∧
      (1 ≤ regCount (runEsOp b m o).2 → (runEsOp b m o).1.inited = true) ∧
      (m.inited = true → regCount (runEsOp b m o).2 = 0 ∧ (runEsOp b m o).1.inited = true) := by
  obtain ⟨hi1, hi2, _⟩ := esInit_regCount b m
  cases o with
  | opInit =>
    refine ⟨hi1, hi2, fun hm => ?_⟩
    rw [runEsOp, esInit_inited b m hm]
    exact ⟨rfl, hm⟩
  | opList =>
    obtain ⟨hst, tail, htr, htail, _⟩ := esList_shape b m
    have hcount : regCount (runEsOp b m .opList).2 = regCount (esInit b m).2.2 := by
      show regCount (esListIndices b m).2.2 = _
      rw [htr, regCount, List.countP_append]
      have : List.countP isReg tail = 0 :=
        List.countP_eq_zero.mpr (fun c hc => by simp [(htail c hc).1])
      rw [this]
      rfl
    have hst2 : (runEsOp b m .opList).1 = (esInit b m).2.1 := hst
    rw [hcount, hst2]
    refine ⟨hi1, hi2, fun hm => ?_⟩
    rw [esInit_inited b m hm]
    exact ⟨rfl, hm⟩
  | opDelete nm =>
    obtain ⟨hst, tail, htr, htail, _⟩ := esDelete_shape b m nm
    have hcount : regCount (runEsOp b m (.opDelete nm)).2 = regCount (esInit b m).2.2 := by
      show regCount (esDeleteIndex b m nm).2.2 = _
      rw [htr, regCount, List.countP_append]
      have : List.countP isReg tail = 0 :=
        List.countP_eq_zero.mpr (fun c hc => by simp [htail c hc])
      rw [this]
      rfl
    have hst2 : (runEsOp b m (.opDelete nm)).1 = (esInit b m).2.1 := hst
    rw [hcount, hst2]
    refine ⟨hi1, hi2, fun hm => ?_⟩
    rw [esInit_inited b m hm]
    exact ⟨rfl, hm⟩
  | opExists nm =>
    obtain ⟨hst, tail, htr, htail⟩ := esExists_shape b m nm
    have hcount : regCount (runEsOp b m (.opExists nm)).2 = 0 := by
      show regCount (esIndexExists b m nm).2.2 = 0
      rw [htr, regCount]
      exact List.countP_eq_zero.mpr (fun c hc => by simp [(htail c hc).1])
    have hst2 : (runEsOp b m (.opExists nm)).1 = m := hst
    rw [hcount, hst2]
    exact ⟨by omega, by omega, fun hm => ⟨rfl, hm⟩⟩

/-- Sequence accounting: a whole operation sequence performs at most one
successful registration, and none at all once the manager is initialized. -/
theorem runEsOps_reg (steps : List (EsOp × BackendResp)) (m : EsLogs) :
    regCount (runEsOps m steps).2 ≤ 1 ∧
      (m.inited = true → regCount (runEsOps m steps).2 = 0) := by
  induction steps generalizing m with
  | nil => exact ⟨by simp [runEsOps, regCount], fun _ => by simp [runEsOps, regCount]⟩
  | cons ob rest ih =>
    rcases ob with ⟨o, b⟩
    obtain ⟨h1, h2, h3⟩ := runEsOp_facts b m o
    obtain ⟨ih1, ih2⟩ := ih (runEsOp b m o).1
    have hsplit : regCount (runEsOps m ((o, b) :: rest)).2 =
        regCount (runEsOp b m o).2 + regCount (runEsOps (runEsOp b m o).1 rest).2 := by
      show regCount ((runEsOp b m o).2 ++ (runEsOps (runEsOp b m o).1 rest).2) = _
      rw [regCount, List.countP_append]
      rfl
    rw [hsplit]
    constructor
    · by_cases hz : regCount (runEsOp b m o).2 = 0
      · omega
      · have : 1 ≤ regCount (runEsOp b m o).2 := by omega
        have hafter := h2 this
        have := ih2 hafter
        omega
    · intro hm
      obtain ⟨hz, hafter⟩ := h3 hm
      have := ih2 hafter
      omega

/-- Boolean form of the lookahead characterization. -/
theorem lookaheadFails_eq (s : List Char) :
    lookaheadFails s =
      (decide (s = ['.']) || decide (s = ['.', '\n']) || decide (s = ['.', '.']) ||
        decide (s = ['.', '.', '\n']) ||
        decide (s.headD 'x' = '-') || decide (s.headD 'x' = '_') || decide (s.headD 'x' = '+')) := by
  rw [Bool.eq_iff_iff]
  simp only [Bool.or_eq_true, decide_eq_true_eq]
  rw [lookaheadFails_iff]
  tauto

/-- Claim C4 (amended).  `_valid_index_prefix` returns true iff the prefix
is 1-255 characters of the allowed class (no uppercase, none of
`: / * ? " < > | , #` or space), does not equal `.` or `..` - also with one
trailing newline appended, since Python `$` matches just before a final
newline - and does not start with `-`, `_` or `+`; in addition a
256-character prefix whose final character is a newline is accepted (the
regex match stops just before the newline). -/
theorem claim_C4 (s : List Char) : valid_index_pfx s = valid_index_pfx_amended s := by
  rw [Bool.eq_iff_iff, vip_iff]
  unfold valid_index_pfx_amended
  rw [← lookaheadFails_eq]
  simp only [Bool.and_eq_true, Bool.not_eq_true', Bool.or_eq_true, decide_eq_true_eq]
  tauto

/-- Claim C4 counterexample.  The prefix `".\n"` satisfies every condition
the claim lists (length 2, no forbidden character - newline is not in the
excluded set - not equal to `.` or `..`, does not start with `-`, `_`,
`+`), yet `_valid_index_prefix` rejects it: in `(?!\.$)` the `$` matches
just before the trailing newline, so the negative lookahead fails. -/
theorem cex_C4 :
    prefix_ok_claimed ['.', '\n'] = true ∧ valid_index_pfx ['.', '\n'] = false := by
  constructor
  · decide
  · decide

/-- Claim C2 (amended).  For every prefix accepted by
`_valid_index_prefix` whose length leaves room for the 10-character date
suffix within the 255-character bound, and every constructor-valid date,
the generated name passes `_valid_index_name` and parsing its date suffix
returns the same date. -/
theorem claim_C2 (p : List Char) (dt : Date) (hp : valid_index_pfx p = true)
    (hlen : p.length + 10 ≤ 255) (hd : Date.valid dt = true) :
    valid_index_name p (index_name p dt) = true ∧
      strptimeYmd ((index_name p dt).drop p.length) = some dt :=
  valid_name_general p dt hp hlen hd

/-- Claim C2 witness at the default prefix and 2025-12-31. -/
theorem wit_C2 :
    valid_index_name logPfx (index_name logPfx ⟨2025, 12, 31⟩) = true ∧
      strptimeYmd ((index_name logPfx ⟨2025, 12, 31⟩).drop logPfx.length) = some ⟨2025, 12, 31⟩ :=
  claim_C2 logPfx ⟨2025, 12, 31⟩ (by decide) (by decide) (by decide)

/-- Claim C2 counterexample.  A 246-character prefix is accepted by
`_valid_index_prefix`, but the generated name for 2024-03-08 has 256
characters and fails `_valid_index_name`, so the round-trip property does
not hold for every accepted prefix. -/
theorem cex_C2 :
    valid_index_pfx pLong = true ∧ Date.valid ⟨2024, 3, 8⟩ = true ∧
      valid_index_name pLong (index_name pLong ⟨2024, 3, 8⟩) = false := by
  refine ⟨by decide, by decide, by decide⟩

/-- Claim C1 (amended).  With a midnight cutoff of 2024-03-10, the index
dated 2024-03-08 is deletable and the one dated 2024-03-10 is not; in
general an index dated exactly one day before a midnight cutoff IS
deletable, because `cutoff - index_dt` is then exactly `timedelta(days=1)`,
which satisfies the `>= timedelta(days=1)` margin test. -/
theorem claim_C1 :
    can_delete_index logPfx ("logentry_2024-03-08".toList) ⟨2024, 3, 10⟩ = .ok true ∧
    can_delete_index logPfx ("logentry_2024-03-10".toList) ⟨2024, 3, 10⟩ = .ok false ∧
    ∀ (dt c : Date), Date.valid dt = true → Date.ord c = Date.ord dt + 1 →
      can_delete_index logPfx (index_name logPfx dt) c = .ok true := by
  refine ⟨by rfl, by rfl, ?_⟩
  intro dt c hdt hc
  obtain ⟨hv, hparse⟩ := valid_name_general logPfx dt (by decide) (by decide) hdt
  unfold can_delete_index
  rw [hv]
  simp only [Bool.not_true, Bool.false_eq_true, if_false]
  rw [hparse]
  show Except.ok (decide (Date.ord dt < Date.ord c) && decide (1 ≤ Date.ord c - Date.ord dt)) =
    Except.ok true
  have h1 : Date.ord dt < Date.ord c := by omega
  have h2 : 1 ≤ Date.ord c - Date.ord dt := by omega
  rw [decide_eq_true h1, decide_eq_true h2]
  rfl

/-- Claim C1 witness: the general one-day-before case at 2024-03-09. -/
theorem wit_C1 :
    can_delete_index logPfx (index_name logPfx ⟨2024, 3, 9⟩) ⟨2024, 3, 10⟩ = .ok true :=
  claim_C1.2.2 ⟨2024, 3, 9⟩ ⟨2024, 3, 10⟩ (by decide) (by decide)

/-- Claim C1 counterexample.  The claim says an index dated 2024-03-09 is
NOT deletable under the midnight cutoff 2024-03-10; the code returns true:
`index_dt < cutoff_date` holds and `cutoff_date - index_dt` equals one day,
satisfying `>= timedelta(days=1)`. -/
theorem cex_C1 :
    can_delete_index logPfx ("logentry_2024-03-09".toList) ⟨2024, 3, 10⟩ = .ok true := by rfl

/-- Claim C3 (amended).  For a valid prefix `p`, `_valid_index_name p
(p ++ s)` returns true only if `s` parses under `%Y-%m-%d` to a
calendar-valid date - where the year is exactly four digits but month and
day may be one or two digits (zero padding is NOT required) - with no
extra characters; `p ++ "2024-13-40"` and `p ++ "2024-01-01extra"` are
rejected, `p ++ "2024-3-9"` is accepted, and a parse failure yields false
rather than an exception (the function is total and Boolean). -/
theorem claim_C3 :
    (∀ (p s : List Char), valid_index_pfx p = true →
        valid_index_name p (p ++ s) = true →
        ∃ dt, strptimeYmd s = some dt ∧ Date.valid dt = true) ∧
    valid_index_name logPfx (logPfx ++ "2024-13-40".toList) = false ∧
    valid_index_name logPfx (logPfx ++ "2024-01-01extra".toList) = false ∧
    valid_index_name logPfx (logPfx ++ "2024-3-9".toList) = true := by
  refine ⟨?_, by decide, by decide, by decide⟩
  intro p s hp hv
  unfold valid_index_name at hv
  rw [List.drop_left] at hv
  split at hv
  · exact nomatch hv
  · split at hv
    · exact nomatch hv
    · cases hs : strptimeYmd s with
      | none => rw [hs] at hv; exact nomatch hv
      | some dt => exact ⟨dt, rfl, strptime_valid s dt hs⟩

/-- Claim C3 witness: the only-if direction applied to an accepted name. -/
theorem wit_C3 :
    ∃ dt, strptimeYmd "2024-06-07".toList = some dt ∧ Date.valid dt = true :=
  claim_C3.1 logPfx "2024-06-07".toList (by decide) (by decide)

/-- Claim C3 counterexample.  `"2024-3-9"` is not a zero-padded
`YYYY-MM-DD` string (it has 8 characters; every zero-padded date has 10,
e.g. the formatter output for 2024-03-09), yet the full name built from it
passes `_valid_index_name`: CPython's `%m`/`%d` groups also accept
unpadded one-digit fields. -/
theorem cex_C3 :
    valid_index_name logPfx (logPfx ++ "2024-3-9".toList) = true ∧
      ("2024-3-9".toList).length = 8 ∧ (strftimeYmd ⟨2024, 3, 9⟩).length = 10 ∧
      "2024-3-9".toList ≠ strftimeYmd ⟨2024, 3, 9⟩ := by
  refine ⟨by decide, by decide, by decide, by decide⟩

/-- Claim C5 (amended).  `list_indices` maps backend not-found to the empty
list and unauthorized to Python `None`, which is distinct from the empty
list, so the two cases are distinguishable there.  `delete_index` returns
the deleted name on success and returns `None` without raising on
not-found - but ALSO returns `None` on unauthorized, so for deletion the
two failure cases are NOT distinguishable by return value (only the logged
message differs). -/
theorem claim_C5 :
    (∀ (b : BackendResp) (m : EsLogs), m.inited = true → b.getIndicesErr = some .notFound →
        (esListIndices b m).1 = .ok (some [])) ∧
    (∀ (b : BackendResp) (m : EsLogs), m.inited = true → b.getIndicesErr = some .unauthorized →
        (esListIndices b m).1 = .ok none) ∧
    ((Except.ok none : Except PyErr (Option (List (List Char)))) ≠ Except.ok (some [])) ∧
    (∀ (b : BackendResp) (m : EsLogs) (i : List Char), m.inited = true →
        valid_index_name m.idxPfx i = true →
        (b.deleteResp = none → (esDeleteIndex b m i).1 = .ok (some i)) ∧
        (b.deleteResp = some .notFound → (esDeleteIndex b m i).1 = .ok none) ∧
        (b.deleteResp = some .unauthorized → (esDeleteIndex b m i).1 = .ok none)) := by
  refine ⟨?_, ?_, by simp, ?_⟩
  · intro b m hm hge
    unfold esListIndices
    rw [esInit_inited b m hm, hge]
  · intro b m hm hge
    unfold esListIndices
    rw [esInit_inited b m hm, hge]
  · intro b m i hm hv
    refine ⟨?_, ?_, ?_⟩ <;> intro hd <;>
      (unfold esDeleteIndex; rw [esInit_inited b m hm, hv, hd]; rfl)

/-- Claim C5 counterexample.  For a valid name on a ready manager,
`delete_index` returns `None` both when the backend answers
`NotFoundError` and when it answers `AuthorizationException`: the two
results are equal, contradicting the claimed distinctness. -/
theorem cex_C5 :
    (esDeleteIndex bDelNF mReady nmB).1 = .ok none ∧
    (esDeleteIndex bDelAuth mReady nmB).1 = .ok none ∧
    (esDeleteIndex bDelNF mReady nmB).1 = (esDeleteIndex bDelAuth mReady nmB).1 := by
  exact ⟨by rfl, by rfl, by rfl⟩

/-- Claim C5 witness at concrete backends and the ready manager. -/
theorem wit_C5 :
    (esListIndices bListNF mReady).1 = .ok (some []) ∧
    (esListIndices bListAuth mReady).1 = .ok none ∧
    (esDeleteIndex bOk mReady nmB).1 = .ok (some nmB) :=
  ⟨claim_C5.1 bListNF mReady rfl rfl, claim_C5.2.1 bListAuth mReady rfl rfl,
    (claim_C5.2.2.2 bOk mReady nmB rfl (by decide)).1 rfl⟩

/-- Claim C6 (amended).  `list_indices` and `delete_index` perform
`_initialize` first: their traces extend the initialization trace, and no
data-plane call is made unless initialization succeeded.  `index_exists`
performs no initialization at all: on a manager whose client was never
created it raises `AttributeError` without any backend contact, and it
maps backend not-found to `False` rather than raising. -/
theorem claim_C6 :
    (∀ (b : BackendResp) (m : EsLogs), ∃ t, (esListIndices b m).2.2 = (esInit b m).2.2 ++ t ∧
        ((esInit b m).1 ≠ .ok () → t = [])) ∧
    (∀ (b : BackendResp) (m : EsLogs) (i : List Char),
        ∃ t, (esDeleteIndex b m i).2.2 = (esInit b m).2.2 ++ t ∧
          ((esInit b m).1 ≠ .ok () → t = [])) ∧
    (∀ (b : BackendResp) (m : EsLogs) (i : List Char), m.hasClient = false →
        esIndexExists b m i = (.error .attributeError, m, [])) ∧
    (∀ (b : BackendResp) (m : EsLogs) (i : List Char), m.hasClient = true →
        b.getIndexErr = some .notFound → (esIndexExists b m i).1 = .ok false) := by
  refine ⟨?_, ?_, ?_, ?_⟩
  · intro b m
    obtain ⟨-, t, ht, -, hfail⟩ := esList_shape b m
    exact ⟨t, ht, hfail⟩
  · intro b m i
    obtain ⟨-, t, ht, -, -, hfail, -⟩ := esDelete_shape b m i
    exact ⟨t, ht, hfail⟩
  · intro b m i hc
    unfold esIndexExists
    rw [hc]
    rfl
  · intro b m i hc hge
    unfold esIndexExists
    rw [hc, hge]
    rfl

/-- Claim C6 counterexample.  After an `_initialize` whose template lookup
failed, the manager never reached the ready state (`_initialized` is still
`False`) but `self._client` is set - so `index_exists` contacts the
backend (its trace holds a real `indices.get` call) on a manager that
never became ready, contradicting the claim that every data-plane
operation requires reaching the ready state before contacting the
backend. -/
theorem cex_C6 :
    mFailed.inited = false ∧ mFailed.hasClient = true ∧
      (esIndexExists bOk mFailed nmA).2.2 = [EsCall.getIndex nmA] :=
  ⟨by rfl, by rfl, by rfl⟩

/-- Claim C6 witness: `AttributeError` on a fresh manager, and not-found
mapped to `False` on a ready one. -/
theorem wit_C6 :
    esIndexExists bOk mFresh nmA = (.error .attributeError, mFresh, []) ∧
      (esIndexExists bExistsNF mReady nmA).1 = .ok false :=
  ⟨claim_C6.2.2.1 bOk mFresh nmA rfl, claim_C6.2.2.2 bExistsNF mReady nmA rfl rfl⟩

/-- Claim C7.  `_initialize` on an already-initialized manager is a
complete no-op - same state, empty trace, so no template lookup, no
registration, no connection creation - and across any operation sequence
against any backend responses, a manager performs at most one successful
template registration. -/
theorem claim_C7 :
    (∀ (b : BackendResp) (m : EsLogs), m.inited = true → esInit b m = (.ok (), m, [])) ∧
    (∀ (pfx : List Char) (force : Bool) (steps : List (EsOp × BackendResp)),
        regCount (runEsOps (mkEsLogs pfx force) steps).2 ≤ 1) :=
  ⟨esInit_inited, fun pfx force steps => (runEsOps_reg steps (mkEsLogs pfx force)).1⟩

/-- Claim C7 witness: a ready manager and a two-initialization sequence. -/
theorem wit_C7 :
    esInit bOk mReady = (.ok (), mReady, []) ∧
      regCount (runEsOps (mkEsLogs logPfx false) [(EsOp.opInit, bOk), (EsOp.opInit, bOk)]).2 ≤ 1 :=
  ⟨claim_C7.1 bOk mReady rfl, claim_C7.2 logPfx false [(EsOp.opInit, bOk), (EsOp.opInit, bOk)]⟩

/-- Claim C8.  If the template lookup fails with any error other than
not-found, `_initialize` propagates exactly that error and the manager
remains non-initialized; whenever initialization actually runs, the
template connection is removed afterwards (the `removeConn` event is in
the trace, success or failure); and the outcome (result and state) is
unaffected by whether `remove_connection` raises `KeyError`, which is only
logged. -/
theorem claim_C8 :
    (∀ (b : BackendResp) (m : EsLogs) (e : EsErr), m.inited = false →
        b.getTemplateResp = some e → e ≠ .notFound →
        (esInit b m).1 = .error e ∧ (esInit b m).2.1.inited = false) ∧
    (∀ (b : BackendResp) (m : EsLogs), m.inited = false →
        EsCall.removeConn b.removeRaisesKeyError ∈ (esInit b m).2.2) ∧
    (∀ (b : BackendResp) (m : EsLogs) (v : Bool),
        (esInit { b with removeRaisesKeyError := v } m).1 = (esInit b m).1 ∧
        (esInit { b with removeRaisesKeyError := v } m).2.1 = (esInit b m).2.1) := by
  refine ⟨?_, ?_, ?_⟩
  · intro b m e hm hb hne
    have ha : initAfterTry b m.idxPfx m.forceTemplateUpdate =
        (.error e, [.getTemplate m.idxPfx]) := by
      unfold initAfterTry initTryRes
      rw [hb]
      cases e with
      | notFound => exact absurd rfl hne
      | unauthorized => rfl
      | transport => rfl
    unfold esInit
    rw [hm]
    simp only [Bool.false_eq_true, if_false, ha]
    exact ⟨trivial, trivial⟩
  · intro b m hm
    rw [esInit_trace b m hm]
    simp
  · intro b m v
    cases hm : m.inited with
    | true =>
      rw [esInit_inited b m hm, esInit_inited _ m hm]
      exact ⟨rfl, rfl⟩
    | false =>
      have h1 : initAfterTry { b with removeRaisesKeyError := v } m.idxPfx m.forceTemplateUpdate
          = initAfterTry b m.idxPfx m.forceTemplateUpdate := rfl
      unfold esInit
      rw [hm]
      simp only [Bool.false_eq_true, if_false, h1]
      cases ha : (initAfterTry b m.idxPfx m.forceTemplateUpdate).1 with
      | error e => simp [ha]
      | ok u => cases u; simp [ha]

/-- Claim C8 witness: a transport error during template lookup on a fresh
manager. -/
theorem wit_C8 :
    ((esInit bGetFailT mFresh).1 = .error .transport ∧
      (esInit bGetFailT mFresh).2.1.inited = false) ∧
    EsCall.removeConn bGetFailT.removeRaisesKeyError ∈ (esInit bGetFailT mFresh).2.2 ∧
    (esInit { bGetFailT with removeRaisesKeyError := true } mFresh).1 =
      (esInit bGetFailT mFresh).1 :=
  ⟨claim_C8.1 bGetFailT mFresh .transport rfl rfl (by decide),
    claim_C8.2.1 bGetFailT mFresh rfl,
    (claim_C8.2.2 bGetFailT mFresh true).1⟩

/-- A validated name always parses to some date. -/
theorem valid_name_parse (pfx i : List Char) (h : valid_index_name pfx i = true) :
    ∃ dt, strptimeYmd (i.drop pfx.length) = some dt := by
  unfold valid_index_name at h
  split at h
  · exact nomatch h
  · split at h
    · exact nomatch h
    · cases hs : strptimeYmd (i.drop pfx.length) with
      | none => rw [hs] at h; exact nomatch h
      | some dt => exact ⟨dt, rfl⟩

/-- Claim C9.  `delete_index` asserts validation before the backend
delete: for an invalid name the operation raises (assertion or earlier
initialization error) and its trace contains no `indices.delete` call;
`can_delete_index` likewise signals `AssertionError` on an invalid name
before parsing; and under the precondition that the name is valid, neither
assertion can fail. -/
theorem claim_C9 :
    (∀ (b : BackendResp) (m : EsLogs) (i : List Char), valid_index_name m.idxPfx i = false →
        (esDeleteIndex b m i).2.2.any isDeleteCall = false ∧
        ∃ e, (esDeleteIndex b m i).1 = .error e) ∧
    (∀ (pfx i : List Char) (c : Date), valid_index_name pfx i = false →
        can_delete_index pfx i c = .error .assertionFailed) ∧
    (∀ (pfx i : List Char) (c : Date), valid_index_name pfx i = true →
        ∃ bl, can_delete_index pfx i c = .ok bl) ∧
    (∀ (b : BackendResp) (m : EsLogs) (i : List Char), valid_index_name m.idxPfx i = true →
        (esDeleteIndex b m i).1 ≠ .error .assertionFailed) := by
  refine ⟨?_, ?_, ?_, ?_⟩
  · intro b m i hv
    obtain ⟨-, -, h3⟩ := esInit_regCount b m
    obtain ⟨-, t, ht, -, -, -, hinv⟩ := esDelete_shape b m i
    rw [hinv hv] at ht
    constructor
    · rw [ht]
      simp [List.any_append, h3]
    · rcases he : esInit b m with ⟨r, m1, cs⟩
      unfold esDeleteIndex
      rw [he]
      cases r with
      | error e => exact ⟨.backend e, rfl⟩
      | ok u =>
        cases u
        exact ⟨.assertionFailed, by rw [hv]; rfl⟩
  · intro pfx i c hv
    unfold can_delete_index
    rw [hv]
    rfl
  · intro pfx i c hv
    obtain ⟨dt, hs⟩ := valid_name_parse pfx i hv
    refine ⟨decide (Date.ord dt < Date.ord c) && decide (1 ≤ Date.ord c - Date.ord dt), ?_⟩
    unfold can_delete_index
    rw [hv, hs]
    rfl
  · intro b m i hv
    rcases he : esInit b m with ⟨r, m1, cs⟩
    unfold esDeleteIndex
    rw [he]
    cases r with
    | error e => simp
    | ok u =>
      cases u
      rw [hv]
      simp only [Bool.not_true, Bool.false_eq_true, if_false]
      cases hd : b.deleteResp with
      | none => simp
      | some e => cases e <;> simp

/-- Claim C9 witness at an invalid and a valid concrete name. -/
theorem wit_C9 :
    (esDeleteIndex bOk mReady badName).2.2.any isDeleteCall = false ∧
    can_delete_index logPfx badName ⟨2024, 3, 10⟩ = .error .assertionFailed ∧
    (∃ bl, can_delete_index logPfx nmB ⟨2024, 3, 10⟩ = .ok bl) ∧
    (esDeleteIndex bOk mReady nmB).1 ≠ .error .assertionFailed :=
  ⟨(claim_C9.1 bOk mReady badName (by decide)).1,
    claim_C9.2.1 logPfx badName ⟨2024, 3, 10⟩ (by decide),
    claim_C9.2.2.1 logPfx nmB ⟨2024, 3, 10⟩ (by decide),
    claim_C9.2.2.2 bOk mReady nmB (by decide)⟩

/-- Claim C10.  On success `list_indices` returns exactly the backend's
names matching `prefix + "*"` with no validation applied: in particular a
backend holding only the name `"logentry_oops"`, which fails
`_valid_index_name`, still yields that name in the result. -/
theorem claim_C10 :
    (∀ (b : BackendResp) (m : EsLogs), m.inited = true → b.getIndicesErr = none →
        (esListIndices b m).1 =
          .ok (some (b.indexSet.filter (fun nm => List.isPrefixOf m.idxPfx nm)))) ∧
    (esListIndices bListBad mReady).1 = .ok (some [badName]) ∧
    valid_index_name logPfx badName = false := by
  refine ⟨?_, by rfl, by decide⟩
  intro b m hm hge
  unfold esListIndices
  rw [esInit_inited b m hm, hge]

/-- Claim C10 witness at the concrete one-bad-index backend. -/
theorem wit_C10 :
    (esListIndices bListBad mReady).1 =
      .ok (some (bListBad.indexSet.filter (fun nm => List.isPrefixOf mReady.idxPfx nm))) :=
  claim_C10.1 bListBad mReady rfl rfl
